import Mathlib

/-!
Verification development for the graph-based workflow interpreter
(`app/core/engine.py`, `app/models/state.py`, `app/models/graph.py`,
`app/core/tools.py`).

The embedding is value-level: Python dicts are association lists
(`List (String × Value)`) preserving insertion order, Python numbers
(int/float interoperable under comparison) are modelled as rationals,
exceptions are `Except String` with the raising function's message.
A separate `RefModel` namespace models the reference (aliasing)
semantics of `WorkflowState.to_dict` and `GraphEngine._log_step`,
where dict identity matters.
-/

namespace Workflow

/-- A Python value as it occurs in workflow state and conditions.
`num` covers int and float (mutually comparable in Python, modelled as ℚ);
`bool` is Python's bool (an int subtype: `True == 1`); `none` is `None`. -/
inductive Value where
  | num (q : ℚ)
  | str (s : String)
  | bool (b : Bool)
  | none
deriving DecidableEq, Repr

/-- Numeric view used by Python's cross-type numeric comparison:
bools compare as 0/1. -/
def Value.toNum? : Value → Option ℚ
  | .num q => some q
  | .bool b => some (if b then 1 else 0)
  | _ => Option.none

/-- A Python dict with string keys, as an insertion-ordered association list. -/
abbrev Dict := List (String × Value)

/-- `d.get(k)` -/
def dictGet (d : Dict) (k : String) : Option Value :=
  (d.find? (fun p => p.1 = k)).map (fun p => p.2)

/-- `d[k] = v`: overwrite in place (keeping position) or append. -/
def dictInsert (d : Dict) (k : String) (v : Value) : Dict :=
  if d.any (fun p => p.1 = k) then
    d.map (fun p => if p.1 = k then (k, v) else p)
  else d ++ [(k, v)]

/-- `d.update(u)`: apply each binding of `u` in order. -/
def dictUpdate (d : Dict) (u : Dict) : Dict :=
  u.foldl (fun acc p => dictInsert acc p.1 p.2) d

/-- `WorkflowState` (src/app/models/state.py): `data` and `metadata`
dictionaries. -/
structure WorkflowState where
  data : Dict
  metadata : Dict
deriving DecidableEq, Repr

/-- `WorkflowState.get(key, default=None)` as called by the engine
(no explicit default, so missing keys read as `None`). -/
def WorkflowState.get (s : WorkflowState) (key : String) : Value :=
  (dictGet s.data key).getD Value.none

/-- `WorkflowState.set(key, value)` (value-level result of the in-place
mutation `self.data[key] = value`). -/
def WorkflowState.set (s : WorkflowState) (key : String) (v : Value) : WorkflowState :=
  { s with data := dictInsert s.data key v }

/-- `WorkflowState.update(updates)` (value-level result of
`self.data.update(updates)`). -/
def WorkflowState.update (s : WorkflowState) (u : Dict) : WorkflowState :=
  { s with data := dictUpdate s.data u }

/-- `ConditionalEdge` (src/app/models/graph.py). -/
structure ConditionalEdge where
  condition_key : String
  condition_operator : String
  condition_value : Value
  true_node : String
  false_node : String
deriving DecidableEq, Repr

/-- `Node` (src/app/models/graph.py); `description` is irrelevant to
execution and omitted. -/
structure Node where
  name : String
  function_name : String
deriving DecidableEq, Repr

/-- `Edge.to_node : Union[str, ConditionalEdge]`. -/
inductive EdgeTarget where
  | simple (name : String)
  | conditional (c : ConditionalEdge)
deriving DecidableEq, Repr

/-- `Edge` (src/app/models/graph.py). -/
structure Edge where
  from_node : String
  to_node : EdgeTarget
deriving DecidableEq, Repr

/-- `Graph` (src/app/models/graph.py); identification fields omitted. -/
structure Graph where
  name : String
  nodes : List Node
  edges : List Edge
  start_node : String
deriving DecidableEq, Repr

/-- `Graph.get_node`: first node with the given name, else `None`. -/
def Graph.get_node (g : Graph) (name : String) : Option Node :=
  g.nodes.find? (fun n => n.name = name)

/-- `Graph.get_next_node`: `to_node` of the first edge whose `from_node`
matches, else `None`. -/
def Graph.get_next_node (g : Graph) (current : String) : Option EdgeTarget :=
  (g.edges.find? (fun e => e.from_node = current)).map (fun e => e.to_node)

/-- Result of invoking a registered step function, per the engine's
polymorphic return contract (`GraphEngine._execute_node`):
a replacement `WorkflowState`, a plain dict of updates, or anything
else (state already mutated in place). -/
inductive ToolResult where
  | newState (s : WorkflowState)
  | updates (u : Dict)
  | other
deriving Repr

/-- A step function: receives the state and yields the (possibly
in-place-mutated) state together with either a raised exception's
message or its return value. -/
def Tool := WorkflowState → WorkflowState × Except String ToolResult

/-- `ToolRegistry` (src/app/core/tools.py): name → callable. -/
structure ToolRegistry where
  tools : List (String × Tool)

/-- `ToolRegistry.has(name)`. -/
def ToolRegistry.has (r : ToolRegistry) (name : String) : Bool :=
  r.tools.any (fun p => p.1 = name)

/-- `ToolRegistry.get(name)`, as an `Option` (the engine checks `has`
before calling `get`, so the raising path is unreachable there). -/
def ToolRegistry.get? (r : ToolRegistry) (name : String) : Option Tool :=
  (r.tools.find? (fun p => p.1 = name)).map (fun p => p.2)

/-- `GraphEngine.max_iterations` (src/app/core/engine.py line 22). -/
def maxIterations : Nat := 100

/-- Python code-point lexicographic order on strings. -/
def charListLt : List Char → List Char → Bool
  | [], [] => false
  | [], _ :: _ => true
  | _ :: _, [] => false
  | a :: as, b :: bs =>
    if a.toNat < b.toNat then true
    else if b.toNat < a.toNat then false
    else charListLt as bs

/-- `a < b` for Python strings. -/
def strLt (a b : String) : Bool := charListLt a.data b.data

/-- Python order comparison (`<`-shaped, instantiated per operator):
numbers (and bools) compare numerically, strings lexicographically,
anything else raises `TypeError` (message abstracted). -/
def pyOrder (fq : ℚ → ℚ → Bool) (fs : String → String → Bool)
    (left right : Value) : Except String Bool :=
  match left.toNum?, right.toNum? with
  | some a, some b => .ok (fq a b)
  | _, _ =>
    match left, right with
    | .str a, .str b => .ok (fs a b)
    | _, _ => .error "unsupported comparison between mismatched operand types"

/-- Python `==`: numeric cross-type equality, structural otherwise,
`False` (without raising) on mismatched types. -/
def pyEq (left right : Value) : Bool :=
  match left.toNum?, right.toNum? with
  | some a, some b => a = b
  | _, _ =>
    match left, right with
    | .str a, .str b => a = b
    | .none, .none => true
    | _, _ => false

/-- `GraphEngine._compare_values` (src/app/core/engine.py lines 148-163):
dispatch on the operator string, raising `ValueError` on an unknown
operator. -/
def compare_values (left : Value) (op : String) (right : Value) : Except String Bool :=
  if op = "<" then pyOrder (fun a b => a < b) (fun a b => strLt a b) left right
  else if op = ">" then pyOrder (fun a b => b < a) (fun a b => strLt b a) left right
  else if op = "<=" then pyOrder (fun a b => a ≤ b) (fun a b => !strLt b a) left right
  else if op = ">=" then pyOrder (fun a b => b ≤ a) (fun a b => !strLt a b) left right
  else if op = "==" then .ok (pyEq left right)
  else if op = "!=" then .ok (!pyEq left right)
  else .error ("Unknown operator: " ++ op)

/-- `GraphEngine._evaluate_conditional_edge` (src/app/core/engine.py
lines 137-146): read `state.get(condition_key)`, compare, pick
`true_node` or `false_node`; a comparison error propagates. -/
def evaluate_conditional_edge (edge : ConditionalEdge) (state : WorkflowState) :
    Except String String :=
  (compare_values (state.get edge.condition_key) edge.condition_operator
      edge.condition_value).map
    (fun r => if r then edge.true_node else edge.false_node)

/-- `ExecutionLog` (src/app/models/api.py): one log entry.
`state_snapshot` holds the `{data, metadata}` pair recorded via
`state.to_dict()`; this value model records the value at logging time
(see `RefModel` for the aliasing behaviour of the source). -/
structure ExecutionLog where
  step : Nat
  node : String
  status : String
  message : String
  state_snapshot : WorkflowState
deriving DecidableEq, Repr

/-- `GraphEngine._log_step` (src/app/core/engine.py lines 165-175):
increment the step counter and append an entry carrying it. -/
def log_step (counter : Nat) (log : List ExecutionLog)
    (node status message : String) (state : WorkflowState) :
    Nat × List ExecutionLog :=
  (counter + 1,
   log ++ [{ step := counter + 1, node := node, status := status,
             message := message, state_snapshot := state }])

/-- `GraphEngine._execute_node` (src/app/core/engine.py lines 99-118):
missing function raises `ValueError`; otherwise invoke the tool and
apply the polymorphic return contract. The returned pair is the
resulting state (after any in-place mutation) and the raised
exception's message, if any. -/
def execute_node (reg : ToolRegistry) (node : Node) (state : WorkflowState) :
    WorkflowState × Option String :=
  match reg.get? node.function_name with
  | Option.none =>
    (state,
     some ("Function \x27" ++ node.function_name ++
       "\x27 not found in tool registry"))
  | some tool =>
    match tool state with
    | (state2, .error e) => (state2, some e)
    | (_, .ok (.newState s)) => (s, Option.none)
    | (state2, .ok (.updates u)) => (state2.update u, Option.none)
    | (state2, .ok .other) => (state2, Option.none)

/-- The `while` loop of `GraphEngine.execute` (src/app/core/engine.py
lines 38-94). `fuel` is an artifact of embedding the loop as structural
recursion; the source's own termination mechanism is the
`max_iterations` guard, and `execute` supplies enough fuel that the
fuel-exhaustion branch is unreachable (`runLoop_fuel_le`). A raised
exception during conditional-edge evaluation escapes the loop (it is
outside the `try` block in the source), modelled by `Except.error`. -/
def runLoop (g : Graph) (reg : ToolRegistry) :
    Nat → String → WorkflowState → Nat → List ExecutionLog →
    Except String (WorkflowState × List ExecutionLog)
  | 0, _, state, _, log => .ok (state, log)
  | fuel + 1, current, state, counter, log =>
    if current = "" ∨ current = "END" then .ok (state, log)
    else if maxIterations ≤ counter then
      .ok (state,
        (log_step counter log current "error"
          ("Maximum iterations (" ++ toString maxIterations ++
            ") reached. Possible infinite loop.")
          state).2)
    else
      match g.get_node current with
      | Option.none =>
        .ok (state,
          (log_step counter log current "error"
            ("Node \x27" ++ current ++ "\x27 not found in graph") state).2)
      | some node =>
        match execute_node reg node state with
        | (state2, some err) =>
          .ok (state2,
            (log_step counter log current "error"
              ("Error executing node \x27" ++ current ++ "\x27: " ++ err)
              state2).2)
        | (state2, Option.none) =>
          let r := log_step counter log current "success"
            ("Node \x27" ++ current ++ "\x27 executed successfully") state2
          match g.get_next_node current with
          | Option.none =>
            runLoop g reg (fuel) "END" state2 r.1 r.2
          | some (.simple nm) =>
            runLoop g reg (fuel) nm state2 r.1 r.2
          | some (.conditional ce) =>
            match evaluate_conditional_edge ce state2 with
            | .error m => .error m
            | .ok next => runLoop g reg (fuel) next state2 r.1 r.2

/-- `GraphEngine.execute(initial_state)`: fresh state with the given
data and empty metadata, counter 0, empty log, starting at
`graph.start_node`. -/
def execute (g : Graph) (reg : ToolRegistry) (initial : Dict) :
    Except String (WorkflowState × List ExecutionLog) :=
  runLoop g reg (maxIterations + 1) g.start_node
    { data := initial, metadata := [] } 0 []

/-!
## Reference semantics of snapshotting

The value model above records, in each `ExecutionLog`, the state's value
at the moment the entry was created. The source does something else:
`WorkflowState.to_dict` (src/app/models/state.py lines 31-36) returns
`{"data": self.data, "metadata": self.metadata}` — the live dict
objects, not copies — and the pydantic validation of
`ExecutionLog.state_snapshot : Optional[Dict[str, Any]]` rebuilds only
the outer dict, leaving the inner `data`/`metadata` values as the same
objects. The `RefModel` namespace makes the dict references explicit,
as addresses into a heap of dict objects.
-/

namespace RefModel

/-- The heap of Python dict objects; an address is an index into
`cells`. -/
structure Heap where
  cells : List Dict
deriving DecidableEq, Repr

/-- Dereference a dict object. -/
def Heap.read (h : Heap) (a : Nat) : Dict := h.cells.getD a []

/-- Mutate a dict object in place. -/
def Heap.write (h : Heap) (a : Nat) (d : Dict) : Heap := ⟨h.cells.set a d⟩

/-- A live `WorkflowState`: its `data` and `metadata` attributes are
references to dict objects. -/
structure StateRef where
  dataRef : Nat
  metaRef : Nat
deriving DecidableEq, Repr

/-- `WorkflowState.update(updates)` (src/app/models/state.py lines
27-29): `self.data.update(updates)` mutates the referenced data dict in
place; the reference itself does not change. -/
def update (h : Heap) (s : StateRef) (u : Dict) : Heap :=
  h.write s.dataRef (dictUpdate (h.read s.dataRef) u)

/-- The `{data, metadata}` pair produced by `WorkflowState.to_dict`:
a fresh outer dict whose two values are references to the live dicts. -/
structure SnapshotRef where
  dataRef : Nat
  metaRef : Nat
deriving DecidableEq, Repr

/-- `WorkflowState.to_dict` (src/app/models/state.py lines 31-36):
returns `{"data": self.data, "metadata": self.metadata}` without
copying the two dicts. -/
def to_dict (s : StateRef) : SnapshotRef := ⟨s.dataRef, s.metaRef⟩

/-- A stored `ExecutionLog` entry whose `state_snapshot` holds the dict
references recorded by `_log_step` (message field omitted here; it is
irrelevant to aliasing). -/
structure LogEntryRef where
  step : Nat
  node : String
  status : String
  state_snapshot : SnapshotRef
deriving DecidableEq, Repr

/-- `GraphEngine._log_step` (src/app/core/engine.py lines 165-175) in
reference semantics: the appended entry records `state.to_dict()`. -/
def log_step (counter : Nat) (log : List LogEntryRef)
    (node status : String) (s : StateRef) : Nat × List LogEntryRef :=
  (counter + 1, log ++ [⟨counter + 1, node, status, to_dict s⟩])

/-- Reading a recorded snapshot (as the API layer does when the log is
serialized after the run) dereferences the stored dict references
against the current heap. -/
def readSnapshot (h : Heap) (sn : SnapshotRef) : WorkflowState :=
  ⟨h.read sn.dataRef, h.read sn.metaRef⟩

/-!
Replay, in reference semantics, of the engine's execution of a linear
two-node graph `A → B` from initial state `{}`, where the tool of `A`
returns the dict `{"x": 1}` and the tool of `B` returns `{"x": 2}`
(both merged into the state by `_execute_node`). The engine performs,
in order: merge of `{"x": 1}`; `_log_step` for `A`; merge of
`{"x": 2}`; `_log_step` for `B`.
-/

/-- Initial heap: the state's empty `data` dict at address 0 and empty
`metadata` dict at address 1 (`WorkflowState(data=initial_state)`). -/
def heap0 : Heap := ⟨[[], []]⟩

/-- The single live state object threaded through the run. -/
def liveState : StateRef := ⟨0, 1⟩

/-- Heap after node A's result `{"x": 1}` is merged. -/
def heapAfterA : Heap := update heap0 liveState [("x", Value.num 1)]

/-- Log after the success entry for node A is recorded. -/
def logAfterA : Nat × List LogEntryRef := log_step 0 [] "A" "success" liveState

/-- Heap after node B's result `{"x": 2}` is merged. -/
def heapAfterB : Heap := update heapAfterA liveState [("x", Value.num 2)]

/-- Log after the success entry for node B is recorded. -/
def logAfterB : Nat × List LogEntryRef :=
  log_step logAfterA.1 logAfterA.2 "B" "success" liveState

end RefModel

/-!
## Concrete fixtures for witnesses and counterexamples
-/

/-- A step function that returns a non-state, non-dict result and does
not touch the state (the in-place branch of the return contract). -/
def idTool : Tool := fun s => (s, .ok .other)

/-- A step function returning the plain dict `u` (merged by the
engine). -/
def mergeTool (u : Dict) : Tool := fun s => (s, .ok (.updates u))

/-- Registry with two dict-returning tools. -/
def regMerge : ToolRegistry :=
  ⟨[("f", mergeTool [("x", .num 1)]), ("g", mergeTool [("x", .num 2)])]⟩

/-- Linear two-node graph A → B. -/
def gLinear : Graph :=
  { name := "lin", nodes := [⟨"A", "f"⟩, ⟨"B", "g"⟩],
    edges := [⟨"A", .simple "B"⟩], start_node := "A" }

/-- Graph whose single node carries a conditional edge with the
unknown operator `~`. -/
def gBadOp : Graph :=
  { name := "bad", nodes := [⟨"A", "f"⟩],
    edges := [⟨"A", .conditional ⟨"x", "~", .num 0, "A", "END"⟩⟩],
    start_node := "A" }

/-- Graph whose single node carries the `score < 7.0` conditional
edge (used to exercise a type-mismatch comparison). -/
def gTypeCmp : Graph :=
  { name := "typecmp", nodes := [⟨"A", "f"⟩],
    edges := [⟨"A", .conditional ⟨"score", "<", .num 7, "loop", "END"⟩⟩],
    start_node := "A" }

/-- Graph whose start node references an unregistered function. -/
def gMissingFn : Graph :=
  { name := "missing", nodes := [⟨"A", "nosuch"⟩], edges := [],
    start_node := "A" }

/-- Graph whose `start_node` is the terminal marker itself. -/
def gStartEnd : Graph :=
  { name := "endstart", nodes := [⟨"A", "f"⟩], edges := [],
    start_node := "END" }

/-- Single-node graph with no outgoing edges. -/
def gSingle : Graph :=
  { name := "single", nodes := [⟨"A", "f"⟩], edges := [],
    start_node := "A" }

/-- The conditional edge of the spec's branch-correctness scenario:
`score < 7.0 ? loop : END`. -/
def scoreEdge : ConditionalEdge := ⟨"score", "<", .num 7, "loop", "END"⟩


/-- A registry none of whose step functions writes the metadata
mapping or returns a replacement `WorkflowState` (the hypothesis of
the metadata pass-through property). -/
def RegistryPreservesMetadata (reg : ToolRegistry) : Prop :=
  ∀ p ∈ reg.tools, ∀ s : WorkflowState,
    (p.2 s).1.metadata = s.metadata ∧
    ∀ s' : WorkflowState, (p.2 s).2 ≠ Except.ok (ToolResult.newState s')

/-! ## Helper lemmas -/

lemma get?_eq_none_of_has_false (r : ToolRegistry) (n : String)
    (h : r.has n = false) : r.get? n = Option.none := by
  unfold ToolRegistry.has at h
  unfold ToolRegistry.get?
  rw [List.find?_eq_none.mpr]
  · rfl
  · intro p hp hpn
    have : r.tools.any (fun p => p.1 = n) = true :=
      List.any_eq_true.mpr ⟨p, hp, hpn⟩
    simp [this] at h

lemma find?_map_replace_self (t : Dict) (k : String) (v : Value)
    (h : ∃ p ∈ t, p.1 = k) :
    (t.map (fun p => if p.1 = k then (k, v) else p)).find?
      (fun p => p.1 = k) = some (k, v) := by
  induction t with
  | nil => simp at h
  | cons q t ih =>
    by_cases hqk : q.1 = k
    · simp [hqk]
    · rw [List.map_cons, if_neg hqk,
        List.find?_cons_of_neg _ (by simpa using hqk)]
      refine ih ?_
      obtain ⟨p, hp, hpk⟩ := h
      cases hp with
      | head => exact absurd hpk hqk
      | tail _ hpt => exact ⟨p, hpt, hpk⟩

lemma find?_map_replace_ne (t : Dict) (k k' : String) (v : Value)
    (h : k' ≠ k) :
    (t.map (fun p => if p.1 = k' then (k', v) else p)).find?
      (fun p => p.1 = k) = t.find? (fun p => p.1 = k) := by
  induction t with
  | nil => rfl
  | cons q t ih =>
    by_cases hqk' : q.1 = k'
    · have hqk : ¬ (q.1 = k) := fun hc => h (by rw [← hqk', hc])
      rw [List.map_cons, if_pos hqk',
        List.find?_cons_of_neg _ (by simpa using h),
        List.find?_cons_of_neg _ (by simpa using hqk)]
      exact ih
    · rw [List.map_cons, if_neg hqk']
      by_cases hqk : q.1 = k
      · rw [List.find?_cons_of_pos _ (by simpa using hqk),
          List.find?_cons_of_pos _ (by simpa using hqk)]
      · rw [List.find?_cons_of_neg _ (by simpa using hqk),
          List.find?_cons_of_neg _ (by simpa using hqk)]
        exact ih

lemma dictGet_insert_self (d : Dict) (k : String) (v : Value) :
    dictGet (dictInsert d k v) k = some v := by
  unfold dictInsert dictGet
  rcases hany : d.any (fun p => p.1 = k) with _ | _
  · simp only [Bool.false_eq_true, if_false]
    rw [List.find?_append]
    have hnone : d.find? (fun p => p.1 = k) = Option.none := by
      rw [List.find?_eq_none]
      intro p hp hpk
      have : d.any (fun p => p.1 = k) = true := List.any_eq_true.mpr ⟨p, hp, hpk⟩
      rw [hany] at this
      cases this
    rw [hnone]
    simp
  · simp only [if_true]
    rw [find?_map_replace_self d k v]
    · rfl
    · obtain ⟨p, hp, hpk⟩ := List.any_eq_true.mp hany
      exact ⟨p, hp, by simpa using hpk⟩

lemma dictGet_insert_ne (d : Dict) (k k' : String) (v : Value) (h : k' ≠ k) :
    dictGet (dictInsert d k' v) k = dictGet d k := by
  unfold dictInsert dictGet
  rcases hany : d.any (fun p => p.1 = k') with _ | _
  · simp only [Bool.false_eq_true, if_false]
    rw [List.find?_append]
    rcases hd : d.find? (fun p => p.1 = k) with _ | p
    · simp [List.find?_singleton, h]
    · simp [hd]
  · simp only [if_true]
    rw [find?_map_replace_ne d k k' v h]


lemma dictGet_cons (q : String × Value) (t : Dict) (k : String) :
    dictGet (q :: t) k = if q.1 = k then some q.2 else dictGet t k := by
  unfold dictGet
  by_cases hqk : q.1 = k
  · rw [List.find?_cons_of_pos _ (by simpa using hqk), if_pos hqk]
    rfl
  · rw [List.find?_cons_of_neg _ (by simpa using hqk), if_neg hqk]

lemma dictGet_dictUpdate_of_none (u : Dict) :
    ∀ (d : Dict) (k : String), dictGet u k = Option.none →
      dictGet (dictUpdate d u) k = dictGet d k := by
  induction u with
  | nil => intro d k _; rfl
  | cons q t ih =>
    intro d k h
    rw [dictGet_cons] at h
    by_cases hqk : q.1 = k
    · rw [if_pos hqk] at h; cases h
    · rw [if_neg hqk] at h
      show dictGet (dictUpdate (dictInsert d q.1 q.2) t) k = dictGet d k
      rw [ih (dictInsert d q.1 q.2) k h, dictGet_insert_ne d k q.1 q.2 hqk]

lemma dictGet_dictUpdate_of_some (u : Dict) :
    ∀ (d : Dict) (k : String) (v : Value), (u.map Prod.fst).Nodup →
      dictGet u k = some v → dictGet (dictUpdate d u) k = some v := by
  induction u with
  | nil => intro d k v _ h; cases h
  | cons q t ih =>
    intro d k v hnd h
    rw [List.map_cons, List.nodup_cons] at hnd
    rw [dictGet_cons] at h
    by_cases hqk : q.1 = k
    · rw [if_pos hqk] at h
      injection h with hv
      have htn : dictGet t k = Option.none := by
        rw [dictGet]
        rw [List.find?_eq_none.mpr]
        · rfl
        · intro p hp hpk
          exact hnd.1 (hqk ▸ (by simpa using hpk : p.1 = k) ▸ List.mem_map_of_mem Prod.fst hp)
      show dictGet (dictUpdate (dictInsert d q.1 q.2) t) k = some v
      rw [dictGet_dictUpdate_of_none t _ k htn, hqk, hv, dictGet_insert_self]
    · rw [if_neg hqk] at h
      show dictGet (dictUpdate (dictInsert d q.1 q.2) t) k = some v
      exact ih (dictInsert d q.1 q.2) k v hnd.2 h

/-- C6: merging a dict returned by a step function into the state
(`WorkflowState.update`, called by `GraphEngine._execute_node` on a
dict result) overwrites or inserts every key of the updates and
preserves every key not present in the updates; in particular
`{a:1, b:2}` updated with `{b:3, c:4}` yields `{a:1, b:3, c:4}`. -/
theorem merge_overwrites_and_preserves :
    (∀ (d u : Dict) (k : String) (v : Value), (u.map Prod.fst).Nodup →
        dictGet u k = some v → dictGet (dictUpdate d u) k = some v)
    ∧ (∀ (d u : Dict) (k : String), dictGet u k = Option.none →
        dictGet (dictUpdate d u) k = dictGet d k)
    ∧ WorkflowState.update ⟨[("a", .num 1), ("b", .num 2)], []⟩
        [("b", .num 3), ("c", .num 4)]
      = ⟨[("a", .num 1), ("b", .num 3), ("c", .num 4)], []⟩ :=
  ⟨fun d u k v hnd h => dictGet_dictUpdate_of_some u d k v hnd h,
   fun d u k h => dictGet_dictUpdate_of_none u d k h,
   by rfl⟩

/-- Witness for C6: a concrete instantiation of the overwrite and
preserve clauses. -/
theorem merge_overwrites_and_preserves_witness :
    dictGet (dictUpdate [("a", Value.num 1)] [("b", Value.num 2)]) "b"
      = some (Value.num 2)
    ∧ dictGet (dictUpdate [("a", Value.num 1)] [("b", Value.num 2)]) "a"
      = dictGet [("a", Value.num 1)] "a" :=
  ⟨merge_overwrites_and_preserves.1 [("a", Value.num 1)] [("b", Value.num 2)]
      "b" (Value.num 2) (by decide) (by rfl),
   merge_overwrites_and_preserves.2.1 [("a", Value.num 1)]
      [("b", Value.num 2)] "a" (by rfl)⟩

/-- C5: conditional-edge evaluation reads `state.get(condition_key)`,
compares it with the operator's natural ordering/equality on numbers,
and selects `true_node` exactly when the comparison holds; the
spec's concrete branch scenario (`score < 7.0 ? loop : END`) routes
`{score: 5.0}` to `"loop"` and `{score: 8.0}` to `"END"`. -/
theorem conditional_edge_evaluation_correct :
    (∀ q₁ q₂ : ℚ, compare_values (.num q₁) "<" (.num q₂) = .ok (decide (q₁ < q₂)))
    ∧ (∀ q₁ q₂ : ℚ, compare_values (.num q₁) ">" (.num q₂) = .ok (decide (q₂ < q₁)))
    ∧ (∀ q₁ q₂ : ℚ, compare_values (.num q₁) "<=" (.num q₂) = .ok (decide (q₁ ≤ q₂)))
    ∧ (∀ q₁ q₂ : ℚ, compare_values (.num q₁) ">=" (.num q₂) = .ok (decide (q₂ ≤ q₁)))
    ∧ (∀ q₁ q₂ : ℚ, compare_values (.num q₁) "==" (.num q₂) = .ok (decide (q₁ = q₂)))
    ∧ (∀ q₁ q₂ : ℚ, compare_values (.num q₁) "!=" (.num q₂) = .ok (decide (q₁ ≠ q₂)))
    ∧ (∀ (e : ConditionalEdge) (s : WorkflowState),
        evaluate_conditional_edge e s =
          (compare_values (s.get e.condition_key) e.condition_operator
              e.condition_value).map
            (fun r => if r then e.true_node else e.false_node))
    ∧ evaluate_conditional_edge scoreEdge ⟨[("score", .num 5)], []⟩ = .ok "loop"
    ∧ evaluate_conditional_edge scoreEdge ⟨[("score", .num 8)], []⟩ = .ok "END" :=
  ⟨fun q₁ q₂ => rfl, fun q₁ q₂ => rfl, fun q₁ q₂ => rfl, fun q₁ q₂ => rfl,
   fun q₁ q₂ => rfl,
   fun q₁ q₂ => by simp [compare_values, pyEq, Value.toNum?, decide_not],
   fun e s => rfl, rfl, rfl⟩

/-- C10: if `start_node` is the literal `"END"`, the driver loop never
runs: `execute` returns the initial data with empty metadata and an
empty log. -/
theorem start_end_returns_immediately (g : Graph) (reg : ToolRegistry)
    (init : Dict) (h : g.start_node = "END") :
    execute g reg init = .ok ({ data := init, metadata := [] }, []) := by
  simp [execute, runLoop, h]

/-- Witness for C10 at the concrete graph `gStartEnd`. -/
theorem start_end_returns_immediately_witness :
    execute gStartEnd regMerge [("k", Value.num 0)] =
      .ok ({ data := [("k", Value.num 0)], metadata := [] }, []) :=
  start_end_returns_immediately gStartEnd regMerge [("k", Value.num 0)] rfl


/-- C7: when the start node exists but references a function name
absent from the Tool Registry, `execute` halts at that node with a
one-entry log whose entry has status `"error"`, and the final state is
the state from before the node ran (the initial data with empty
metadata): the failed dispatch performs no mutation. -/
theorem missing_function_single_error_entry (g : Graph) (reg : ToolRegistry)
    (init : Dict) (node : Node)
    (h1 : g.get_node g.start_node = some node)
    (h2 : reg.has node.function_name = false)
    (h3 : g.start_node ≠ "") (h4 : g.start_node ≠ "END") :
    execute g reg init =
      .ok ({ data := init, metadata := [] },
        [{ step := 1, node := g.start_node, status := "error",
           message := "Error executing node \x27" ++ g.start_node ++
             "\x27: " ++ ("Function \x27" ++ node.function_name ++
             "\x27 not found in tool registry"),
           state_snapshot := { data := init, metadata := [] } }]) := by
  have hget : reg.get? node.function_name = Option.none :=
    get?_eq_none_of_has_false reg node.function_name h2
  show runLoop g reg (maxIterations + 1) g.start_node
    { data := init, metadata := [] } 0 [] = _
  rw [runLoop]
  rw [if_neg (by simp [h3, h4])]
  rw [if_neg (by simp [maxIterations])]
  rw [h1]
  simp only [execute_node, hget, log_step, List.nil_append]

/-- Witness for C7 at the concrete graph `gMissingFn` (whose single
node references the unregistered function name `nosuch`). -/
theorem missing_function_single_error_entry_witness :
    execute gMissingFn regMerge [("a", Value.num 1)] =
      .ok ({ data := [("a", Value.num 1)], metadata := [] },
        [{ step := 1, node := "A", status := "error",
           message := "Error executing node \x27A\x27: " ++
             "Function \x27nosuch\x27 not found in tool registry",
           state_snapshot := { data := [("a", Value.num 1)], metadata := [] } }]) := by
  have h := missing_function_single_error_entry gMissingFn regMerge
    [("a", Value.num 1)] ⟨"A", "nosuch"⟩ (by rfl) (by rfl)
    (by decide) (by decide)
  exact h

lemma runLoop_to_end (g : Graph) (reg : ToolRegistry) :
    ∀ (fuel : Nat) (state : WorkflowState) (counter : Nat)
      (log : List ExecutionLog),
      runLoop g reg fuel "END" state counter log = .ok (state, log) := by
  intro fuel state counter log
  cases fuel <;> simp [runLoop]

/-- C8: `get_next_node` returns the `to_node` of the first edge (in
edge-list order) whose `from_node` matches, and `None` when no edge
matches; and when the engine gets `None` after a successful node it
sets `current` to `"END"`, so the loop returns right after recording
that node's success entry. -/
theorem get_next_node_first_match_and_termination :
    (∀ (g : Graph) (n : String),
        g.get_next_node n = Option.none ↔ ∀ e ∈ g.edges, e.from_node ≠ n)
    ∧ (∀ (g : Graph) (n : String) (pre post : List Edge) (e : Edge),
        g.edges = pre ++ e :: post → e.from_node = n →
        (∀ e' ∈ pre, e'.from_node ≠ n) →
        g.get_next_node n = some e.to_node)
    ∧ (∀ (g : Graph) (reg : ToolRegistry) (fuel : Nat) (current : String)
        (state state2 : WorkflowState) (counter : Nat)
        (log : List ExecutionLog) (node : Node),
        current ≠ "" → current ≠ "END" → counter < maxIterations →
        g.get_node current = some node →
        execute_node reg node state = (state2, Option.none) →
        g.get_next_node current = Option.none →
        runLoop g reg (fuel + 1) current state counter log =
          .ok (state2, log ++
            [{ step := counter + 1, node := current, status := "success",
               message := "Node \x27" ++ current ++
                 "\x27 executed successfully",
               state_snapshot := state2 }])) := by
  refine ⟨?_, ?_, ?_⟩
  · intro g n
    constructor
    · intro h e he hfn
      have : (g.edges.find? (fun e => e.from_node = n)).isSome := by
        rw [List.find?_isSome]
        exact ⟨e, he, by simpa using hfn⟩
      unfold Graph.get_next_node at h
      rcases hf : g.edges.find? (fun e => e.from_node = n) with _ | e'
      · rw [hf] at this; cases this
      · rw [hf] at h; cases h
    · intro h
      unfold Graph.get_next_node
      rw [List.find?_eq_none.mpr]
      · rfl
      · intro e he
        simpa using h e he
  · intro g n pre post e hedges hfn hpre
    unfold Graph.get_next_node
    rw [hedges, List.find?_append]
    rw [List.find?_eq_none.mpr (fun e' he' => by simpa using hpre e' he')]
    rw [List.find?_cons_of_pos _ (by simpa using hfn)]
    rfl
  · intro g reg fuel current state state2 counter log node
      h3 h4 hguard h1 hex hnext
    rw [runLoop]
    rw [if_neg (by simp [h3, h4])]
    rw [if_neg (by simpa using Nat.not_le.mpr hguard)]
    simp only [h1, hex, hnext, log_step]
    exact runLoop_to_end g reg fuel state2 _ _

/-- Witness for C8: instantiation of all three clauses at concrete
graphs (`gSingle` has no outgoing edges; `gLinear` has an edge from
`A`). -/
theorem get_next_node_first_match_and_termination_witness :
    gSingle.get_next_node "A" = Option.none
    ∧ gLinear.get_next_node "A" = some (.simple "B")
    ∧ runLoop gSingle regMerge 1 "A" { data := [], metadata := [] } 0 [] =
      .ok ({ data := [("x", Value.num 1)], metadata := [] },
        [{ step := 1, node := "A", status := "success",
           message := "Node \x27A\x27 executed successfully",
           state_snapshot := { data := [("x", Value.num 1)], metadata := [] } }]) := by
  refine ⟨?_, ?_, ?_⟩
  · exact (get_next_node_first_match_and_termination.1 gSingle "A").mpr
      (by intro e he hfn; cases he)
  · exact get_next_node_first_match_and_termination.2.1 gLinear "A" [] []
      ⟨"A", .simple "B"⟩ (by rfl) (by rfl) (by intro e' he'; cases he')
  · have h := get_next_node_first_match_and_termination.2.2 gSingle regMerge 0
      "A" { data := [], metadata := [] }
      { data := [("x", Value.num 1)], metadata := [] } 0 [] ⟨"A", "f"⟩
      (by decide) (by decide) (by decide) (by rfl) (by rfl) (by rfl)
    simpa using h


lemma steps_append (log : List ExecutionLog) (counter : Nat)
    (e : ExecutionLog)
    (hmap : log.map (fun x => x.step) = List.range' 1 counter)
    (hlen : log.length = counter) (hstep : e.step = counter + 1) :
    (log ++ [e]).map (fun x => x.step) = List.range' 1 (counter + 1)
    ∧ (log ++ [e]).length = counter + 1 := by
  constructor
  · rw [List.map_append, hmap, List.range'_1_concat, Nat.add_comm 1 counter]
    simp [hstep]
  · simp [hlen]

lemma steps_log_step (log : List ExecutionLog) (counter : Nat)
    (n s m : String) (st : WorkflowState)
    (hmap : log.map (fun x => x.step) = List.range' 1 counter)
    (hlen : log.length = counter) :
    ((log_step counter log n s m st).2).map (fun x => x.step)
      = List.range' 1 ((log_step counter log n s m st).2).length := by
  simp only [log_step]
  obtain ⟨hm, hl⟩ := steps_append log counter
    { step := counter + 1, node := n, status := s, message := m,
      state_snapshot := st } hmap hlen rfl
  rw [hl]
  exact hm

lemma runLoop_steps (g : Graph) (reg : ToolRegistry) :
    ∀ (fuel : Nat) (current : String) (state : WorkflowState)
      (counter : Nat) (log : List ExecutionLog) (st : WorkflowState)
      (log' : List ExecutionLog),
      log.map (fun x => x.step) = List.range' 1 counter →
      log.length = counter →
      runLoop g reg fuel current state counter log = .ok (st, log') →
      log'.map (fun x => x.step) = List.range' 1 log'.length := by
  intro fuel
  induction fuel with
  | zero =>
    intro current state counter log st log' hmap hlen hrun
    rw [runLoop] at hrun
    injection hrun with h
    injection h with h1 h2
    rw [← h2, hmap, hlen]
  | succ f ih =>
    intro current state counter log st log' hmap hlen hrun
    rw [runLoop] at hrun
    by_cases hterm : current = "" ∨ current = "END"
    · rw [if_pos hterm] at hrun
      injection hrun with h
      injection h with h1 h2
      rw [← h2, hmap, hlen]
    · rw [if_neg hterm] at hrun
      by_cases hguard : maxIterations ≤ counter
      · rw [if_pos hguard] at hrun
        injection hrun with h
        injection h with h1 h2
        rw [← h2]
        exact steps_log_step log counter _ _ _ _ hmap hlen
      · rw [if_neg hguard] at hrun
        cases hnode : g.get_node current with
        | none =>
          rw [hnode] at hrun
          injection hrun with h
          injection h with h1 h2
          rw [← h2]
          exact steps_log_step log counter _ _ _ _ hmap hlen
        | some node =>
          rw [hnode] at hrun
          simp only [] at hrun
          cases hex : execute_node reg node state with
          | mk state2 eopt =>
            rw [hex] at hrun
            cases eopt with
            | some err =>
              injection hrun with h
              injection h with h1 h2
              rw [← h2]
              exact steps_log_step log counter _ _ _ _ hmap hlen
            | none =>
              simp only [log_step] at hrun
              obtain ⟨hm, hl⟩ := steps_append log counter
                { step := counter + 1, node := current, status := "success",
                  message := "Node \x27" ++ current ++
                    "\x27 executed successfully",
                  state_snapshot := state2 } hmap hlen rfl
              cases hnext : g.get_next_node current with
              | none =>
                rw [hnext] at hrun
                exact ih "END" state2 (counter + 1) _ st log' hm hl hrun
              | some t =>
                rw [hnext] at hrun
                cases t with
                | simple nm =>
                  exact ih nm state2 (counter + 1) _ st log' hm hl hrun
                | conditional ce =>
                  cases heval : evaluate_conditional_edge ce state2 with
                  | error m =>
                    simp only [heval] at hrun
                    simp at hrun
                  | ok next =>
                    simp only [heval] at hrun
                    exact ih next state2 (counter + 1) _ st log' hm hl hrun

/-- C4: in any successfully returned log, the `step` fields read in
order are exactly `1, 2, ..., n`: strictly increasing by 1 from 1 with
no gaps or repeats, regardless of the entries' status. -/
theorem log_steps_consecutive_from_one (g : Graph) (reg : ToolRegistry)
    (init : Dict) (st : WorkflowState) (log : List ExecutionLog)
    (h : execute g reg init = .ok (st, log)) :
    log.map (fun x => x.step) = List.range' 1 log.length :=
  runLoop_steps g reg (maxIterations + 1) g.start_node
    { data := init, metadata := [] } 0 [] st log (by rfl) (by rfl) h

/-- Witness for C4 on the concrete two-node run of `gLinear`. -/
theorem log_steps_consecutive_from_one_witness :
    ∃ st log, execute gLinear regMerge [] = .ok (st, log)
      ∧ log.map (fun x => x.step) = List.range' 1 log.length := by
  refine ⟨_, _, rfl, ?_⟩
  exact log_steps_consecutive_from_one gLinear regMerge [] _ _ rfl


lemma runLoop_length (g : Graph) (reg : ToolRegistry) :
    ∀ (fuel : Nat) (current : String) (state : WorkflowState)
      (counter : Nat) (log : List ExecutionLog) (st : WorkflowState)
      (log' : List ExecutionLog),
      log.length = counter →
      runLoop g reg fuel current state counter log = .ok (st, log') →
      log'.length ≤ max (counter + 1) (maxIterations + 1) := by
  intro fuel
  induction fuel with
  | zero =>
    intro current state counter log st log' hlen hrun
    rw [runLoop] at hrun
    injection hrun with h
    injection h with h1 h2
    rw [← h2, hlen]
    omega
  | succ f ih =>
    intro current state counter log st log' hlen hrun
    rw [runLoop] at hrun
    by_cases hterm : current = "" ∨ current = "END"
    · rw [if_pos hterm] at hrun
      injection hrun with h
      injection h with h1 h2
      rw [← h2, hlen]
      omega
    · rw [if_neg hterm] at hrun
      by_cases hguard : maxIterations ≤ counter
      · rw [if_pos hguard] at hrun
        injection hrun with h
        injection h with h1 h2
        rw [← h2]
        simp only [log_step, List.length_append, List.length_singleton]
        omega
      · rw [if_neg hguard] at hrun
        cases hnode : g.get_node current with
        | none =>
          rw [hnode] at hrun
          injection hrun with h
          injection h with h1 h2
          rw [← h2]
          simp only [log_step, List.length_append, List.length_singleton]
          omega
        | some node =>
          rw [hnode] at hrun
          simp only [] at hrun
          cases hex : execute_node reg node state with
          | mk state2 eopt =>
            rw [hex] at hrun
            cases eopt with
            | some err =>
              injection hrun with h
              injection h with h1 h2
              rw [← h2]
              simp only [log_step, List.length_append, List.length_singleton]
              omega
            | none =>
              simp only [log_step] at hrun
              have hlen2 : (log ++
                  [({ step := counter + 1, node := current,
                      status := "success",
                      message := "Node \x27" ++ current ++
                        "\x27 executed successfully",
                      state_snapshot := state2 } : ExecutionLog)]).length
                  = counter + 1 := by
                simp [hlen]
              cases hnext : g.get_next_node current with
              | none =>
                rw [hnext] at hrun
                have := ih "END" state2 (counter + 1) _ st log' hlen2 hrun
                omega
              | some t =>
                rw [hnext] at hrun
                cases t with
                | simple nm =>
                  have := ih nm state2 (counter + 1) _ st log' hlen2 hrun
                  omega
                | conditional ce =>
                  cases heval : evaluate_conditional_edge ce state2 with
                  | error m =>
                    simp only [heval] at hrun
                    simp at hrun
                  | ok next =>
                    simp only [heval] at hrun
                    have := ih next state2 (counter + 1) _ st log' hlen2 hrun
                    omega

lemma runLoop_fuel_mono (g : Graph) (reg : ToolRegistry) :
    ∀ (f₁ f₂ : Nat) (current : String) (state : WorkflowState)
      (counter : Nat) (log : List ExecutionLog),
      maxIterations + 1 - counter ≤ f₁ → 1 ≤ f₁ → f₁ ≤ f₂ →
      runLoop g reg f₁ current state counter log
        = runLoop g reg f₂ current state counter log := by
  intro f₁
  induction f₁ with
  | zero =>
    intro f₂ current state counter log hc h1 h12
    omega
  | succ f ih =>
    intro f₂ current state counter log hc h1 h12
    cases f₂ with
    | zero => omega
    | succ f₂' =>
      rw [runLoop, runLoop]
      by_cases hterm : current = "" ∨ current = "END"
      · rw [if_pos hterm, if_pos hterm]
      · rw [if_neg hterm, if_neg hterm]
        by_cases hguard : maxIterations ≤ counter
        · rw [if_pos hguard, if_pos hguard]
        · rw [if_neg hguard, if_neg hguard]
          cases hnode : g.get_node current with
          | none => rfl
          | some node =>
            simp only []
            cases hex : execute_node reg node state with
            | mk state2 eopt =>
              cases eopt with
              | some err => rfl
              | none =>
                simp only [log_step]
                cases hnext : g.get_next_node current with
                | none =>
                  exact ih f₂' "END" state2 (counter + 1) _
                    (by omega) (by omega) (by omega)
                | some t =>
                  cases t with
                  | simple nm =>
                    exact ih f₂' nm state2 (counter + 1) _
                      (by omega) (by omega) (by omega)
                  | conditional ce =>
                    cases heval : evaluate_conditional_edge ce state2 with
                    | error m => simp only [heval]
                    | ok next =>
                      simp only [heval]
                      exact ih f₂' next state2 (counter + 1) _
                        (by omega) (by omega) (by omega)

/-- C3: execution always halts within the iteration bound: giving the
driver loop any amount of fuel beyond the bound does not change the
result (the loop exits by `"END"`, by the guard at
`max_iterations = 100`, by a missing node, or by a fatal step failure
before the extra fuel could matter), and every successfully returned
log has at most `max_iterations + 1` entries — at most 100 node visits
plus one final guard/error entry. -/
theorem execute_halts_within_bound :
    (∀ (g : Graph) (reg : ToolRegistry) (init : Dict) (fuel : Nat),
        maxIterations + 1 ≤ fuel →
        runLoop g reg fuel g.start_node { data := init, metadata := [] } 0 []
          = execute g reg init)
    ∧ (∀ (g : Graph) (reg : ToolRegistry) (init : Dict)
        (st : WorkflowState) (log : List ExecutionLog),
        execute g reg init = .ok (st, log) →
        log.length ≤ maxIterations + 1) := by
  constructor
  · intro g reg init fuel hfuel
    exact (runLoop_fuel_mono g reg (maxIterations + 1) fuel g.start_node
      { data := init, metadata := [] } 0 [] (by omega) (by omega) hfuel).symm
  · intro g reg init st log h
    have := runLoop_length g reg (maxIterations + 1) g.start_node
      { data := init, metadata := [] } 0 [] st log rfl h
    omega

/-- Witness for C3: extra fuel does not change the run of `gLinear`,
and its 2-entry log is within the bound. -/
theorem execute_halts_within_bound_witness :
    runLoop gLinear regMerge (maxIterations + 7) "A"
      { data := [], metadata := [] } 0 []
      = execute gLinear regMerge []
    ∧ ∃ st log, execute gLinear regMerge [] = .ok (st, log)
      ∧ log.length ≤ maxIterations + 1 := by
  constructor
  · exact execute_halts_within_bound.1 gLinear regMerge [] (maxIterations + 7)
      (by decide)
  · refine ⟨_, _, rfl, ?_⟩
    exact execute_halts_within_bound.2 gLinear regMerge [] _ _ rfl


/-- Counterexample for C2: failures during conditional-edge evaluation
are raised outside the `try` block of the driver loop
(src/app/core/engine.py lines 78-92) and escape `execute`: with an
unrecognized operator `~`, and with a string-vs-number comparison,
`execute` raises instead of returning a state and log. -/
theorem conditional_eval_error_escapes_execute :
    execute gBadOp regMerge [] = .error "Unknown operator: ~"
    ∧ execute gTypeCmp regMerge [("score", Value.str "abc")]
      = .error "unsupported comparison between mismatched operand types" :=
  ⟨rfl, rfl⟩

lemma evaluate_conditional_edge_error (ce : ConditionalEdge)
    (s : WorkflowState) (m : String)
    (h : evaluate_conditional_edge ce s = .error m) :
    compare_values (s.get ce.condition_key) ce.condition_operator
      ce.condition_value = .error m := by
  unfold evaluate_conditional_edge at h
  cases hcmp : compare_values (s.get ce.condition_key) ce.condition_operator
      ce.condition_value with
  | error m' =>
    rw [hcmp] at h
    injection h with h1
    rw [h1]
  | ok b =>
    rw [hcmp] at h
    cases h

lemma runLoop_error_source (g : Graph) (reg : ToolRegistry) :
    ∀ (fuel : Nat) (current : String) (state : WorkflowState)
      (counter : Nat) (log : List ExecutionLog) (m : String),
      runLoop g reg fuel current state counter log = .error m →
      ∃ e ∈ g.edges, ∃ ce, e.to_node = EdgeTarget.conditional ce ∧
        ∃ v, compare_values v ce.condition_operator ce.condition_value
          = .error m := by
  intro fuel
  induction fuel with
  | zero =>
    intro current state counter log m hrun
    rw [runLoop] at hrun
    cases hrun
  | succ f ih =>
    intro current state counter log m hrun
    rw [runLoop] at hrun
    by_cases hterm : current = "" ∨ current = "END"
    · rw [if_pos hterm] at hrun; cases hrun
    · rw [if_neg hterm] at hrun
      by_cases hguard : maxIterations ≤ counter
      · rw [if_pos hguard] at hrun; cases hrun
      · rw [if_neg hguard] at hrun
        cases hnode : g.get_node current with
        | none => rw [hnode] at hrun; cases hrun
        | some node =>
          rw [hnode] at hrun
          simp only [] at hrun
          cases hex : execute_node reg node state with
          | mk state2 eopt =>
            rw [hex] at hrun
            cases eopt with
            | some err => cases hrun
            | none =>
              simp only [log_step] at hrun
              cases hnext : g.get_next_node current with
              | none =>
                rw [hnext] at hrun
                exact ih "END" state2 (counter + 1) _ m hrun
              | some t =>
                rw [hnext] at hrun
                cases t with
                | simple nm =>
                  exact ih nm state2 (counter + 1) _ m hrun
                | conditional ce =>
                  cases heval : evaluate_conditional_edge ce state2 with
                  | error m' =>
                    simp only [heval] at hrun
                    injection hrun with hm
                    obtain ⟨edge, hfind, hto⟩ :=
                      Option.map_eq_some'.mp hnext
                    refine ⟨edge, List.mem_of_find?_eq_some hfind, ce,
                      hto, state2.get ce.condition_key, ?_⟩
                    rw [← hm]
                    exact evaluate_conditional_edge_error ce state2 m' heval
                  | ok next =>
                    simp only [heval] at hrun
                    exact ih next state2 (counter + 1) _ m hrun

/-- C2 (amended): missing nodes, the iteration bound, and dispatch
failures (unregistered function, exception inside the step function)
are caught at the driver-loop boundary and converted into a terminal
`"error"` log entry plus loop exit; but a conditional-edge evaluation
failure (unrecognized operator or type-mismatch comparison) escapes
`execute`, and it is the only way `execute` can raise: every raised
error comes from `_compare_values` on a conditional edge of the
graph. -/
theorem execute_error_only_from_conditional_compare (g : Graph)
    (reg : ToolRegistry) (init : Dict) (m : String)
    (h : execute g reg init = .error m) :
    ∃ e ∈ g.edges, ∃ ce, e.to_node = EdgeTarget.conditional ce ∧
      ∃ v, compare_values v ce.condition_operator ce.condition_value
        = .error m :=
  runLoop_error_source g reg (maxIterations + 1) g.start_node
    { data := init, metadata := [] } 0 [] m h

/-- Witness for C2's amended theorem at the concrete graph `gBadOp`. -/
theorem execute_error_only_from_conditional_compare_witness :
    ∃ e ∈ gBadOp.edges, ∃ ce, e.to_node = EdgeTarget.conditional ce ∧
      ∃ v, compare_values v ce.condition_operator ce.condition_value
        = .error "Unknown operator: ~" :=
  execute_error_only_from_conditional_compare gBadOp regMerge []
    "Unknown operator: ~" rfl


lemma get?_mem (r : ToolRegistry) (n : String) (t : Tool)
    (h : r.get? n = some t) : ∃ p ∈ r.tools, p.2 = t := by
  unfold ToolRegistry.get? at h
  obtain ⟨p, hfind, hp2⟩ := Option.map_eq_some'.mp h
  exact ⟨p, List.mem_of_find?_eq_some hfind, hp2⟩

lemma execute_node_metadata (reg : ToolRegistry) (node : Node)
    (state state2 : WorkflowState) (eopt : Option String)
    (hreg : RegistryPreservesMetadata reg)
    (h : execute_node reg node state = (state2, eopt)) :
    state2.metadata = state.metadata := by
  unfold execute_node at h
  cases hget : reg.get? node.function_name with
  | none =>
    rw [hget] at h
    injection h with h1 h2
    rw [← h1]
  | some tool =>
    rw [hget] at h
    simp only [] at h
    obtain ⟨p, hp, hpt⟩ := get?_mem reg node.function_name tool hget
    have hspec := hreg p hp state
    cases htool : tool state with
    | mk s2 res =>
      have hps : p.2 state = (s2, res) := by rw [hpt, htool]
      rw [htool] at h
      cases res with
      | error e =>
        injection h with h1 h2
        rw [← h1]
        have := hspec.1
        rw [hps] at this
        exact this
      | ok tr =>
        cases tr with
        | newState s' =>
          exfalso
          have := hspec.2 s'
          rw [hps] at this
          exact this rfl
        | updates u =>
          injection h with h1 h2
          rw [← h1]
          show (s2.update u).metadata = state.metadata
          have := hspec.1
          rw [hps] at this
          exact this
        | other =>
          injection h with h1 h2
          rw [← h1]
          have := hspec.1
          rw [hps] at this
          exact this

lemma runLoop_metadata (g : Graph) (reg : ToolRegistry)
    (hreg : RegistryPreservesMetadata reg) (md : Dict) :
    ∀ (fuel : Nat) (current : String) (state : WorkflowState)
      (counter : Nat) (log : List ExecutionLog) (st : WorkflowState)
      (log' : List ExecutionLog),
      state.metadata = md →
      (∀ en ∈ log, en.state_snapshot.metadata = md) →
      runLoop g reg fuel current state counter log = .ok (st, log') →
      st.metadata = md ∧ ∀ en ∈ log', en.state_snapshot.metadata = md := by
  intro fuel
  induction fuel with
  | zero =>
    intro current state counter log st log' hmd hlog hrun
    rw [runLoop] at hrun
    injection hrun with h
    injection h with h1 h2
    rw [← h1, ← h2]
    exact ⟨hmd, hlog⟩
  | succ f ih =>
    intro current state counter log st log' hmd hlog hrun
    have happend : ∀ (e : ExecutionLog), e.state_snapshot.metadata = md →
        ∀ en ∈ log ++ [e], en.state_snapshot.metadata = md := by
      intro e he en hen
      rcases List.mem_append.mp hen with hl | hr
      · exact hlog en hl
      · rw [List.mem_singleton.mp hr]
        exact he
    rw [runLoop] at hrun
    by_cases hterm : current = "" ∨ current = "END"
    · rw [if_pos hterm] at hrun
      injection hrun with h
      injection h with h1 h2
      rw [← h1, ← h2]
      exact ⟨hmd, hlog⟩
    · rw [if_neg hterm] at hrun
      by_cases hguard : maxIterations ≤ counter
      · rw [if_pos hguard] at hrun
        injection hrun with h
        injection h with h1 h2
        rw [← h1, ← h2]
        simp only [log_step]
        exact ⟨hmd, happend _ hmd⟩
      · rw [if_neg hguard] at hrun
        cases hnode : g.get_node current with
        | none =>
          rw [hnode] at hrun
          injection hrun with h
          injection h with h1 h2
          rw [← h1, ← h2]
          simp only [log_step]
          exact ⟨hmd, happend _ hmd⟩
        | some node =>
          rw [hnode] at hrun
          simp only [] at hrun
          cases hex : execute_node reg node state with
          | mk state2 eopt =>
            have hmd2 : state2.metadata = md := by
              rw [execute_node_metadata reg node state state2 eopt hreg hex]
              exact hmd
            rw [hex] at hrun
            cases eopt with
            | some err =>
              injection hrun with h
              injection h with h1 h2
              rw [← h1, ← h2]
              simp only [log_step]
              exact ⟨hmd2, happend _ hmd2⟩
            | none =>
              simp only [log_step] at hrun
              have hlog2 := happend
                { step := counter + 1, node := current, status := "success",
                  message := "Node \x27" ++ current ++
                    "\x27 executed successfully",
                  state_snapshot := state2 } hmd2
              cases hnext : g.get_next_node current with
              | none =>
                rw [hnext] at hrun
                exact ih "END" state2 (counter + 1) _ st log' hmd2 hlog2 hrun
              | some t =>
                rw [hnext] at hrun
                cases t with
                | simple nm =>
                  exact ih nm state2 (counter + 1) _ st log' hmd2 hlog2 hrun
                | conditional ce =>
                  cases heval : evaluate_conditional_edge ce state2 with
                  | error m =>
                    simp only [heval] at hrun
                    simp at hrun
                  | ok next =>
                    simp only [heval] at hrun
                    exact ih next state2 (counter + 1) _ st log' hmd2 hlog2
                      hrun

/-- C9: if no registered step function writes the metadata mapping or
returns a replacement state container, the engine's own operations
(dispatch-result merging, condition evaluation, logging) leave
metadata intact: the final state's metadata and the metadata in every
log snapshot equal the (empty) metadata the run started with. -/
theorem metadata_passed_through_unchanged (g : Graph) (reg : ToolRegistry)
    (init : Dict) (st : WorkflowState) (log : List ExecutionLog)
    (hreg : RegistryPreservesMetadata reg)
    (h : execute g reg init = .ok (st, log)) :
    st.metadata = [] ∧ ∀ en ∈ log, en.state_snapshot.metadata = [] :=
  runLoop_metadata g reg hreg [] (maxIterations + 1) g.start_node
    { data := init, metadata := [] } 0 [] st log rfl
    (by intro en hen; cases hen) h

/-- Witness for C9 on the concrete run of `gLinear` with the
dict-returning registry `regMerge`. -/
theorem metadata_passed_through_unchanged_witness :
    ∃ st log, execute gLinear regMerge [("m", Value.num 9)] = .ok (st, log)
      ∧ st.metadata = [] ∧ ∀ en ∈ log, en.state_snapshot.metadata = [] := by
  refine ⟨_, _, rfl, ?_⟩
  refine metadata_passed_through_unchanged gLinear regMerge
    [("m", Value.num 9)] _ _ ?_ rfl
  intro p hp s
  rcases List.mem_cons.mp hp with h1 | hrest
  · rw [h1]
    exact ⟨rfl, fun s' hc => by cases hc⟩
  · rcases List.mem_cons.mp hrest with h2 | hnil
    · rw [h2]
      exact ⟨rfl, fun s' hc => by cases hc⟩
    · cases hnil


/-- C1 (code bug): the recorded `state_snapshot` is not an
independently-mutable copy of the state at recording time.
`WorkflowState.to_dict` returns the live `data`/`metadata` dict
objects, so every log entry's snapshot aliases them, and in-place
mutations performed by later steps rewrite the snapshots of
already-recorded entries. In the replayed two-step run (`A` merges
`{"x": 1}`, then `B` merges `{"x": 2}`): both entries record the same
dict references; at the moment entry 1 was recorded the referenced
data dict held `{"x": 1}`, but after node B's merge the same recorded
snapshot reads `{"x": 2}`. -/
theorem snapshot_retroactively_mutated :
    RefModel.logAfterB.2.map (fun e => e.state_snapshot)
      = [RefModel.to_dict RefModel.liveState,
         RefModel.to_dict RefModel.liveState]
    ∧ (RefModel.readSnapshot RefModel.heapAfterA
        (RefModel.to_dict RefModel.liveState)).data = [("x", Value.num 1)]
    ∧ (RefModel.readSnapshot RefModel.heapAfterB
        (RefModel.to_dict RefModel.liveState)).data = [("x", Value.num 2)]
    ∧ RefModel.readSnapshot RefModel.heapAfterB
        (RefModel.to_dict RefModel.liveState)
      ≠ RefModel.readSnapshot RefModel.heapAfterA
        (RefModel.to_dict RefModel.liveState) := by
  refine ⟨rfl, rfl, rfl, ?_⟩
  decide

end Workflow
